import Mathlib

/-!
Shallow embedding of the connectivity-metric computation engine of this
repository: `PhaseLagIndex` (phaselagindex.cpp) and
`UnbiasedSquaredPhaseLagIndex` (unbiasedsquaredphaselagindex.cpp).

Real (double) values are modelled as rationals, complex values as pairs of
rationals.  Eigen matrices are modelled as lists of rows.  The external DSP
primitives of the `Spectral` utility class (generateTapers,
computeTaperedSpectra, csdFromTaperedSpectra), which are collaborators of
this core and whose internals are standard DSP routines, are kept abstract:
they are fields of a `Spectral` structure over which all statements
quantify, mirroring the dependency contracts the metric code relies on.
-/

/-- Real scalar vector (a matrix row). -/
abbrev Vec := List ℚ

/-- Real matrix as a list of rows (Eigen `MatrixXd`). -/
abbrev Mat := List Vec

/-- Complex scalar: pair of rationals modelling `std::complex<double>`. -/
structure Cx where
  re : ℚ
  im : ℚ
deriving DecidableEq

/-- The complex zero. -/
def cxZero : Cx := ⟨0, 0⟩

/-- Complex conjugation. -/
def conjCx (z : Cx) : Cx := ⟨z.re, -z.im⟩

/-- Complex row vector (Eigen `RowVectorXcd`). -/
abbrev CVec := List Cx

/-- Complex matrix (Eigen `MatrixXcd`). -/
abbrev CMat := List CVec

/-- Eigen `cwiseSign` on a real scalar: +1 for positive, -1 for negative,
0 for exactly zero. -/
def csign (q : ℚ) : ℚ := if 0 < q then 1 else if q < 0 then -1 else 0

/-- Number of rows of a matrix (`MatrixXd::rows()`). -/
def nRows (m : Mat) : ℕ := m.length

/-- Number of columns of a matrix (`MatrixXd::cols()`); our list-of-rows
model reads it off the first row (Eigen matrices are rectangular). -/
def nCols (m : Mat) : ℕ := m.headI.length

/-- Entry access with out-of-range reads defaulting to 0. -/
def getEntry (m : Mat) (r c : ℕ) : ℚ := (m.getD r []).getD c 0

/-- Eigen `mean()` of a row. -/
def meanOf (v : Vec) : ℚ := v.sum / v.length

/-- One row of the DC-removal step: `row.array() -= row.mean()`. -/
def demeanRow (v : Vec) : Vec := v.map (fun q => q - meanOf v)

/-- DC removal applied to every row of a trial matrix
(phaselagindex.cpp, the per-trial mean-removal loop). -/
def demeanRows (m : Mat) : Mat := m.map demeanRow

/-- The `n × p` zero matrix (`MatrixXd::Zero`). -/
def zeroMat (n p : ℕ) : Mat := List.replicate n (List.replicate p (0 : ℚ))

/-- Entry-wise map over a real matrix (Eigen `array()` expressions). -/
def matMapQ (g : ℚ → ℚ) (m : Mat) : Mat := m.map (List.map g)

/-- Abstract interface of the external `Spectral` utility class
(utils/spectral.h), whose implementation is outside the connectivity
metrics: taper generation, tapered spectrum computation and cross-spectral
density combination.  The metric code is a functional of these. -/
structure Spectral where
  generateTapers : ℤ → String → Mat × Vec
  computeTaperedSpectra : Vec → Mat → ℤ → CMat
  csdFromTaperedSpectra : CMat → CMat → Vec → Vec → ℤ → ℚ → CVec

/-- A graph edge (network/networkedge.h): endpoints are stored as node
indices (the C++ holds shared pointers to the endpoint nodes constructed
with exactly these indices), plus the per-frequency weight vector
`matWeight`. -/
structure NetworkEdge where
  startId : ℕ
  endId : ℕ
  matWeight : Vec
deriving DecidableEq

/-- A graph node (network/networknode.h): channel index, 3-D position, and
the list of edges appended to the node via `getNodeAt(i)->append(pEdge)`. -/
structure NetworkNode where
  id : ℕ
  pos : Vec
  edges : List NetworkEdge
deriving DecidableEq

/-- The weighted graph returned by the metrics (network/network.h). -/
structure Network where
  name : String
  nodes : List NetworkNode
  edges : List NetworkEdge
deriving DecidableEq

/-- Network name used by `PhaseLagIndex::phaseLagIndex`. -/
def pliNetworkName : String := "Phase Lag Index"

/-- Network name used by
`UnbiasedSquaredPhaseLagIndex::unbiasedSquaredPhaseLagIndex`. -/
def usqNetworkName : String := "Unbiased Squared Phase Lag Index"

/-- First three components of a geometry row, as copied into `rowVert`. -/
def vert3 (v : Vec) : Vec := [v.getD 0 0, v.getD 1 0, v.getD 2 0]

/-- `RowVectorXf::Zero(3)`, the initial value of `rowVert`. -/
def zeroVert : Vec := [0, 0, 0]

/-- Replace the element at index `i` (QList node update through
`getNodeAt(i)`). -/
def modifyIdx {α : Type} : List α → ℕ → (α → α) → List α
  | [], _, _ => []
  | x :: xs, 0, f => f x :: xs
  | x :: xs, n + 1, f => x :: modifyIdx xs n f

/-- Node-creation loop shared verbatim by both metrics (phaselagindex.cpp
lines 261-273, unbiasedsquaredphaselagindex.cpp lines 104-116): `rowVert`
is a single mutable vector initialised to zero and only overwritten while
`i < matVert.rows()`, so later nodes reuse its previous contents. -/
def createNodes (rows : ℕ) (matVert : Mat) : List NetworkNode :=
  ((List.range rows).foldl
    (fun st i =>
      let rowVert := if matVert.length ≠ 0 ∧ i < matVert.length then vert3 (matVert.getD i []) else st.1
      (rowVert, st.2 ++ [{ id := i, pos := rowVert, edges := [] }]))
    (zeroVert, ([] : List NetworkNode))).2

/-- The edge object `pEdge` constructed for tensor index `i` and target
channel `j`: its weight `matWeight` is row `j` of tensor element `i`
(transposed to a column in the C++, represented here as the row vector). -/
def edgeAt (tensor : List Mat) (i j : ℕ) : NetworkEdge :=
  { startId := i, endId := j, matWeight := (tensor.getD i []).getD j [] }

/-- Edge-creation double loop shared verbatim by both metrics
(phaselagindex.cpp lines 278-288, unbiasedsquaredphaselagindex.cpp lines
121-131): outer loop over the connectivity tensor index `i`, inner loop
over target channel `j`; the single edge object `pEdge = edgeAt tensor i j`
is appended both to node `i` and to the network's edge list. -/
def attachEdges (nodes : List NetworkNode) (tensor : List Mat) (rows : ℕ) :
    List NetworkNode × List NetworkEdge :=
  (List.range tensor.length).foldl
    (fun st i =>
      (List.range rows).foldl
        (fun st2 j =>
          (modifyIdx st2.1 i (fun nd => { nd with edges := nd.edges ++ [edgeAt tensor i j] }),
           st2.2 ++ [edgeAt tensor i j]))
        st)
    (nodes, [])

namespace PhaseLagIndex

/-- One row of the per-trial CSD matrix: `matCsd.row(k)` is the
cross-spectrum between reference channel `j` and channel `k`
(phaselagindex.cpp line 336). -/
def csdRowOf (S : Spectral) (vecTapSpectra : List CMat) (w : Vec) (iNfft : ℤ) (j k : ℕ) : CVec :=
  S.csdFromTaperedSpectra (vecTapSpectra.getD j []) (vecTapSpectra.getD k []) w w iNfft 1

/-- Entry-wise matrix addition keeping the accumulator's shape (Eigen `+`
on same-shaped matrices; the accumulators are pre-sized, so their shape
governs). -/
def accAdd (acc b : Mat) : Mat :=
  (List.range acc.length).map fun r =>
    (List.range (acc.getD r []).length).map fun c => getEntry acc r c + getEntry b r c

/-- One epoch of the accumulation loop of `PhaseLagIndex::computePLI`
(phaselagindex.cpp lines 318-341): demean the trial, compute every
channel's tapered spectrum, and add the sign of the imaginary part of each
pairwise CSD into the running accumulators. -/
def trialStep (S : Spectral) (tapers : Mat × Vec) (iNfft : ℤ) (iNRows : ℕ)
    (acc : List Mat) (trial : Mat) : List Mat :=
  let matInputData := demeanRows trial
  let vecTapSpectra := (List.range iNRows).map fun j =>
    S.computeTaperedSpectra (matInputData.getD j []) tapers.1 iNfft
  (List.range iNRows).map fun j =>
    accAdd (acc.getD j [])
      ((List.range iNRows).map fun k =>
        (csdRowOf S vecTapSpectra tapers.2 iNfft j k).map fun z => csign z.im)

/-- `PhaseLagIndex::computePLI` (phaselagindex.cpp lines 296-348): raise
the FFT length to the first trial's sample count once, generate tapers from
the first trial's sample count, accumulate the sign of the imaginary CSD
over all trials, then divide by the trial count and take absolute values. -/
def computePLI (S : Spectral) (matDataList : List Mat) (iNfft : ℤ) (sWindowType : String) :
    List Mat :=
  let iSignalLength : ℤ := (nCols matDataList.headI : ℤ)
  let iNfft2 : ℤ := if iNfft < iSignalLength then iSignalLength else iNfft
  let tapers := S.generateTapers iSignalLength sWindowType
  let iNRows := nRows matDataList.headI
  let iNFreqs : ℕ := (iNfft2.fdiv 2 + 1).toNat
  let vecCsdAvg := matDataList.foldl (trialStep S tapers iNfft2 iNRows)
    (List.replicate iNRows (zeroMat iNRows iNFreqs))
  (List.range iNRows).map fun i =>
    matMapQ (fun q => q / (matDataList.length : ℚ))
      (matMapQ (fun q => |q|) (vecCsdAvg.getD i []))

/-- `PhaseLagIndex::phaseLagIndex` (phaselagindex.cpp lines 251-291). -/
def phaseLagIndex (S : Spectral) (matDataList : List Mat) (matVert : Mat)
    (iNfft : ℤ) (sWindowType : String) : Network :=
  if matDataList = [] then { name := pliNetworkName, nodes := [], edges := [] }
  else
    let rows := nRows matDataList.headI
    let nodes := createNodes rows matVert
    let vecPLI := computePLI S matDataList iNfft sWindowType
    let res := attachEdges nodes vecPLI rows
    { name := pliNetworkName, nodes := res.1, edges := res.2 }

end PhaseLagIndex

namespace UnbiasedSquaredPhaseLagIndex

/-- The element-wise debiasing transform applied by
`UnbiasedSquaredPhaseLagIndex::computeUnbiasedSquaredPLI`
(unbiasedsquaredphaselagindex.cpp line 150):
`(double(iNTrials) * p^2 - 1.0) / double(iNTrials - 1)`. -/
def debias (iNTrials : ℤ) (p : ℚ) : ℚ :=
  ((iNTrials : ℚ) * p ^ 2 - 1) / ((iNTrials - 1 : ℤ) : ℚ)

/-- `UnbiasedSquaredPhaseLagIndex::computeUnbiasedSquaredPLI`
(unbiasedsquaredphaselagindex.cpp lines 139-153): compute the standard PLI,
then replace each tensor element by its debiased square.  Note: no guard on
the trial count; with one trial the divisor `iNTrials - 1` is zero. -/
def computeUnbiasedSquaredPLI (S : Spectral) (matDataList : List Mat) (iNfft : ℤ)
    (sWindowType : String) : List Mat :=
  let iNRows := nRows matDataList.headI
  let iNTrials : ℤ := matDataList.length
  let vecUnbiasedSquaredPLI := PhaseLagIndex.computePLI S matDataList iNfft sWindowType
  (List.range iNRows).foldl
    (fun v j => v.set j (matMapQ (debias iNTrials) (v.getD j [])))
    vecUnbiasedSquaredPLI

/-- `UnbiasedSquaredPhaseLagIndex::unbiasedSquaredPhaseLagIndex`
(unbiasedsquaredphaselagindex.cpp lines 93-134). -/
def unbiasedSquaredPhaseLagIndex (S : Spectral) (matDataList : List Mat) (matVert : Mat)
    (iNfft : ℤ) (sWindowType : String) : Network :=
  if matDataList = [] then { name := usqNetworkName, nodes := [], edges := [] }
  else
    let rows := nRows matDataList.headI
    let nodes := createNodes rows matVert
    let vecUnbiasedSquaredPLI := computeUnbiasedSquaredPLI S matDataList iNfft sWindowType
    let res := attachEdges nodes vecUnbiasedSquaredPLI rows
    { name := usqNetworkName, nodes := res.1, edges := res.2 }

end UnbiasedSquaredPhaseLagIndex

/-- The FFT length actually applied by `computePLI` to every trial: the
requested length raised, once and globally, to the first trial's sample
count (phaselagindex.cpp lines 299-303). -/
def effNfft (matDataList : List Mat) (iNfft : ℤ) : ℤ :=
  if iNfft < (nCols matDataList.headI : ℤ) then (nCols matDataList.headI : ℤ) else iNfft

/-- Number of frequency bins of the `computePLI` output:
`int(floor(iNfft / 2.0)) + 1` at the corrected FFT length. -/
def pliNFreqs (matDataList : List Mat) (iNfft : ℤ) : ℕ :=
  ((effNfft matDataList iNfft).fdiv 2 + 1).toNat

/-- The taper set `computePLI` generates once from the first trial's sample
count (phaselagindex.cpp line 306). -/
def tapersOf (S : Spectral) (matDataList : List Mat) (sWindowType : String) : Mat × Vec :=
  S.generateTapers (nCols matDataList.headI : ℤ) sWindowType

/-- The tapered spectrum of channel `j` of a trial, as `computePLI`
computes it: the demeaned row, the global taper set, the corrected FFT
length. -/
def trialSpectrum (S : Spectral) (matDataList : List Mat) (iNfft : ℤ) (sWindowType : String)
    (trial : Mat) (j : ℕ) : CMat :=
  S.computeTaperedSpectra (demeanRow (trial.getD j [])) (tapersOf S matDataList sWindowType).1
    (effNfft matDataList iNfft)

/-- The cross-spectral density `CSD_t(i,k)` of a trial, as `computePLI`
computes it (phaselagindex.cpp line 336). -/
def trialCsd (S : Spectral) (matDataList : List Mat) (iNfft : ℤ) (sWindowType : String)
    (trial : Mat) (i k : ℕ) : CVec :=
  S.csdFromTaperedSpectra (trialSpectrum S matDataList iNfft sWindowType trial i)
    (trialSpectrum S matDataList iNfft sWindowType trial k)
    (tapersOf S matDataList sWindowType).2 (tapersOf S matDataList sWindowType).2
    (effNfft matDataList iNfft) 1

/-- `sign(Im(CSD_t(i,k,f)))`: the contribution of one trial to the PLI
accumulator entry `(i,k,f)`. -/
def trialSignIm (S : Spectral) (matDataList : List Mat) (iNfft : ℤ) (sWindowType : String)
    (trial : Mat) (i k f : ℕ) : ℚ :=
  csign ((trialCsd S matDataList iNfft sWindowType trial i k).getD f cxZero).im

/-- One trial's contribution to accumulator entry `(i,k,f)` as it appears
literally inside `trialStep`, with the taper set and FFT length still
abstract. -/
def trialContrib (S : Spectral) (tapers : Mat × Vec) (iNfft : ℤ) (n : ℕ) (trial : Mat)
    (i k f : ℕ) : ℚ :=
  csign ((PhaseLagIndex.csdRowOf S
      ((List.range n).map fun j => S.computeTaperedSpectra ((demeanRows trial).getD j []) tapers.1 iNfft)
      tapers.2 iNfft i k).getD f cxZero).im

/-- Shape invariant of the accumulator list: `n` matrices, each `n × p`. -/
def ShapeInv (n p : ℕ) (acc : List Mat) : Prop :=
  acc.length = n ∧ ∀ m ∈ acc, m.length = n ∧ ∀ r ∈ m, r.length = p

/-- Position that the node-creation loop actually assigns to channel `i`:
the geometry row for `i` while one exists, and afterwards the lingering
contents of `rowVert`, i.e. the last supplied geometry row (the origin only
when no geometry was supplied at all). -/
def nodePosF (matVert : Mat) (i : ℕ) : Vec :=
  if matVert.length = 0 then zeroVert else vert3 (matVert.getD (min i (matVert.length - 1)) [])

/-- Spec-side model of §4.4 with *per-trial* spectral parameters: the same
accumulation pipeline as `PhaseLagIndex.computePLI`, but the FFT length and
the taper-generation length applied to a trial are arbitrary functions of
that trial.  Instantiating both with constant functions recovers the
source's global behaviour; instantiating them per-trial expresses the
spec sentence under test in claim C4. -/
def specComputePLIwith (S : Spectral) (matDataList : List Mat) (sWindowType : String)
    (nfftF : Mat → ℤ) (taperLenF : Mat → ℤ) : List Mat :=
  let iNRows := nRows matDataList.headI
  let iNFreqs : ℕ := ((nfftF matDataList.headI).fdiv 2 + 1).toNat
  let vecCsdAvg := matDataList.foldl
    (fun acc trial =>
      PhaseLagIndex.trialStep S (S.generateTapers (taperLenF trial) sWindowType)
        (nfftF trial) iNRows acc trial)
    (List.replicate iNRows (zeroMat iNRows iNFreqs))
  (List.range iNRows).map fun i =>
    matMapQ (fun q => q / (matDataList.length : ℚ))
      (matMapQ (fun q => |q|) (vecCsdAvg.getD i []))

/-- Spec wording of claim C4: the window length for trial `t` is
`max(requested FFT length, trial t's own sample count)`. -/
def specTrialWindowLen (iNfft : ℤ) (trial : Mat) : ℤ := max iNfft (nCols trial : ℤ)

/-- Claim C4's reading of §4.4, modelled from the spec's words: every trial
processed in its own spectral window, with FFT length and taper length
derived from that trial's sample count. -/
def specComputePLI (S : Spectral) (matDataList : List Mat) (iNfft : ℤ)
    (sWindowType : String) : List Mat :=
  specComputePLIwith S matDataList sWindowType
    (fun trial => specTrialWindowLen iNfft trial) (fun trial => (nCols trial : ℤ))

/-- Default window-type selector used in the concrete evaluations. -/
def win₀ : String := "hanning"

/-- Trivial concrete instantiation of the external spectral dependency,
used to evaluate the metric pipeline on closed inputs: one taper, constant
spectra, a CSD with imaginary part 1 at the single frequency bin. -/
def S₀ : Spectral where
  generateTapers := fun _ _ => ([[1]], [1])
  computeTaperedSpectra := fun _ _ _ => [[⟨1, 1⟩]]
  csdFromTaperedSpectra := fun _ _ _ _ _ _ => [⟨0, 1⟩]

/-- A single-trial data set (one channel, one sample): trial count T = 1. -/
def dataT1 : List Mat := [[[1]]]

/-- Probe instantiation of the spectral dependency whose CSD output encodes
the FFT length it was invoked with (imaginary part `nfft - 4`), used to
observe which window length the pipeline applies to each trial. -/
def S₄ : Spectral where
  generateTapers := fun _ _ => ([], [])
  computeTaperedSpectra := fun _ _ _ => []
  csdFromTaperedSpectra := fun _ _ _ _ n _ => [⟨0, (n : ℚ) - 4⟩]

/-- Two trials with differing sample counts: the first has 2 samples, the
second 5. -/
def data₄ : List Mat := [[[0, 0]], [[0, 0, 0, 0, 0]]]

/-- One trial with two channels (one sample each). -/
def data₅ : List Mat := [[[0], [0]]]

/-- A geometry matrix with a single row: fewer rows than channels. -/
def vert₅ : Mat := [[1, 2, 3]]

/-- Concrete spectral dependency for the symmetry witness: the CSD of two
spectra is purely imaginary with imaginary part `val a - val b`, so
swapping the channel arguments conjugates it. -/
def S₈ : Spectral where
  generateTapers := fun _ _ => ([[1]], [1])
  computeTaperedSpectra := fun v _ _ => [[⟨v.headI, 0⟩]]
  csdFromTaperedSpectra := fun a b _ _ _ _ =>
    [⟨0, ((a.getD 0 []).getD 0 cxZero).re - ((b.getD 0 []).getD 0 cxZero).re⟩]

/-- One trial, two channels, two samples each, with distinct demeaned
leading samples. -/
def data₈ : List Mat := [[[1, 3], [2, 2]]]

/-! ### General list lemmas -/

lemma getD_range_map {α : Type} (f : ℕ → α) (d : α) {r n : ℕ} (h : r < n) :
    ((List.range n).map f).getD r d = f r := by
  have hr : r < ((List.range n).map f).length := by simpa using h
  rw [List.getD_eq_getElem _ _ hr]
  simp

lemma getD_map_of {α β : Type} {g : α → β} {d : α} {e : β} (h : g d = e) :
    ∀ (l : List α) (n : ℕ), (l.map g).getD n e = g (l.getD n d)
  | [], n => by simp [List.getD, h.symm]
  | x :: xs, 0 => by simp [List.getD]
  | x :: xs, n + 1 => by simpa [List.getD] using getD_map_of h xs n

lemma getD_replicate_lt {α : Type} {x d : α} {n i : ℕ} (h : i < n) :
    (List.replicate n x).getD i d = x := by
  have hr : i < (List.replicate n x).length := by simpa using h
  rw [List.getD_eq_getElem _ _ hr, List.getElem_replicate]

lemma foldl_ext' {α β : Type} {f g : β → α → β} (h : ∀ b a, f b a = g b a) :
    ∀ (l : List α) (b : β), l.foldl f b = l.foldl g b
  | [], _ => rfl
  | x :: xs, b => by rw [List.foldl_cons, List.foldl_cons, h]; exact foldl_ext' h xs _

lemma foldl_preserves {α σ τ : Type} {P : σ → τ} {step : σ → α → σ}
    (h : ∀ s a, P (step s a) = P s) :
    ∀ (l : List α) (s : σ), P (l.foldl step s) = P s
  | [], _ => rfl
  | x :: xs, s => by rw [List.foldl_cons, foldl_preserves h xs, h]

lemma snd_foldl_append {α σ β : Type} {step : σ × List β → α → σ × List β} {g : α → List β}
    (h : ∀ st a, (step st a).2 = st.2 ++ g a) :
    ∀ (l : List α) (st : σ × List β), (l.foldl step st).2 = st.2 ++ l.flatMap g
  | [], st => by simp
  | x :: xs, st => by
    rw [List.foldl_cons, snd_foldl_append h xs, h, List.flatMap_cons, List.append_assoc]

lemma flatMap_singleton_eq_map {α β : Type} (f : α → β) :
    ∀ l : List α, (l.flatMap fun a => [f a]) = l.map f
  | [] => rfl
  | x :: xs => by rw [List.flatMap_cons, List.map_cons, flatMap_singleton_eq_map f xs]; rfl

lemma modifyIdx_map {α β : Type} {f : α → α} {g : α → β} (h : ∀ x, g (f x) = g x) :
    ∀ (l : List α) (i : ℕ), (modifyIdx l i f).map g = l.map g
  | [], _ => rfl
  | x :: xs, 0 => by simp [modifyIdx, h]
  | x :: xs, n + 1 => by simp [modifyIdx, modifyIdx_map h xs n]

lemma foldl_set_map_aux {α : Type} (f : α → α) (d : α) (v : List α) :
    ∀ n, n ≤ v.length →
      (List.range n).foldl (fun w j => w.set j (f (w.getD j d))) v
        = (v.take n).map f ++ v.drop n := by
  intro n
  induction n with
  | zero => simp
  | succ n ih =>
    intro hn1
    have hn : n < v.length := by omega
    rw [List.range_succ, List.foldl_append, ih (by omega)]
    have hlen : ((v.take n).map f).length = n := by
      simp [List.length_take]
      omega
    have hgetD : ((v.take n).map f ++ v.drop n).getD n d = v[n] := by
      rw [List.getD_append_right _ _ _ _ (by omega), hlen, Nat.sub_self,
        List.drop_eq_getElem_cons hn]
      rfl
    have hset : ((v.take n).map f ++ v.drop n).set n (f v[n])
        = (v.take n).map f ++ (f v[n] :: v.drop (n + 1)) := by
      rw [List.set_append_right _ _ (by omega), hlen, Nat.sub_self,
        List.drop_eq_getElem_cons hn]
      rfl
    have htake : v.take (n + 1) = v.take n ++ [v[n]] := by
      rw [List.take_succ, List.getElem?_eq_getElem hn]
      rfl
    simp only [List.foldl_cons, List.foldl_nil, hgetD, hset, htake, List.map_append]
    simp

lemma foldl_set_map {α : Type} (f : α → α) (d : α) (v : List α) :
    (List.range v.length).foldl (fun w j => w.set j (f (w.getD j d))) v = v.map f := by
  simpa using foldl_set_map_aux f d v v.length le_rfl

/-! ### Sign and entry lemmas -/

lemma csign_zero : csign 0 = 0 := rfl

lemma csign_neg (x : ℚ) : csign (-x) = -csign x := by
  unfold csign
  rcases lt_trichotomy x 0 with h | h | h
  · simp [h, neg_pos.mpr h, lt_asymm h]
  · simp [h]
  · simp [h, lt_asymm h, neg_lt_zero.mpr h, not_lt.mpr (le_of_lt h)]

lemma abs_csign_le_one (x : ℚ) : |csign x| ≤ 1 := by
  unfold csign
  split_ifs <;> norm_num

lemma abs_sum_le_length (l : List ℚ) (h : ∀ x ∈ l, |x| ≤ 1) : |l.sum| ≤ l.length := by
  induction l with
  | nil => simp
  | cons a t ih =>
    have ha : |a| ≤ 1 := h a (by simp)
    have ht : |t.sum| ≤ t.length := ih fun x hx => h x (by simp [hx])
    calc |(a :: t).sum| = |a + t.sum| := by rw [List.sum_cons]
      _ ≤ |a| + |t.sum| := abs_add _ _
      _ ≤ 1 + t.length := by linarith
      _ = ((a :: t).length : ℚ) := by push_cast [List.length_cons]; ring

lemma getEntry_nil (k f : ℕ) : getEntry [] k f = 0 := by
  simp [getEntry, List.getD]

lemma getEntry_matMapQ {g : ℚ → ℚ} (h : g 0 = 0) (m : Mat) (k f : ℕ) :
    getEntry (matMapQ g m) k f = g (getEntry m k f) := by
  unfold getEntry matMapQ
  rw [getD_map_of (List.map_nil) m k, getD_map_of h (m.getD k []) f]

lemma getEntry_zeroMat (n p k f : ℕ) : getEntry (zeroMat n p) k f = 0 := by
  unfold getEntry zeroMat
  rcases lt_or_ge k n with hk | hk
  · rw [getD_replicate_lt hk]
    rcases lt_or_ge f p with hf | hf
    · rw [getD_replicate_lt hf]
    · rw [List.getD_eq_default _ _ (by simpa using hf)]
  · rw [List.getD_eq_default (List.replicate n (List.replicate p 0)) [] (by simpa using hk)]
    simp [List.getD]

lemma getD_mem {α : Type} {l : List α} {i : ℕ} (d : α) (h : i < l.length) : l.getD i d ∈ l := by
  rw [List.getD_eq_getElem _ _ h]
  exact List.getElem_mem _

lemma demeanRow_nil : demeanRow [] = [] := rfl

/-! ### Accumulator lemmas -/

lemma length_accAdd (a b : Mat) : (PhaseLagIndex.accAdd a b).length = a.length := by
  simp [PhaseLagIndex.accAdd]

lemma getEntry_accAdd (a b : Mat) {r c : ℕ} (hr : r < a.length) (hc : c < (a.getD r []).length) :
    getEntry (PhaseLagIndex.accAdd a b) r c = getEntry a r c + getEntry b r c := by
  show ((PhaseLagIndex.accAdd a b).getD r []).getD c 0 = _
  unfold PhaseLagIndex.accAdd
  rw [getD_range_map _ _ hr, getD_range_map _ _ hc]

lemma shapeInv_replicate (n p : ℕ) : ShapeInv n p (List.replicate n (zeroMat n p)) := by
  constructor
  · simp
  · intro m hm
    rw [List.eq_of_mem_replicate hm]
    constructor
    · simp [zeroMat]
    · intro r hr
      unfold zeroMat at hr
      rw [List.eq_of_mem_replicate hr]
      simp

lemma trialStep_shape {S : Spectral} {tapers : Mat × Vec} {nfft : ℤ} {n p : ℕ} {acc : List Mat}
    (h : ShapeInv n p acc) (trial : Mat) :
    ShapeInv n p (PhaseLagIndex.trialStep S tapers nfft n acc trial) := by
  obtain ⟨hlen, hmem⟩ := h
  constructor
  · simp [PhaseLagIndex.trialStep]
  · intro m hm
    simp only [PhaseLagIndex.trialStep, List.mem_map, List.mem_range] at hm
    obtain ⟨j, hj, rfl⟩ := hm
    obtain ⟨hjlen, hjrows⟩ := hmem _ (getD_mem [] (by rw [hlen]; exact hj))
    constructor
    · rw [length_accAdd, hjlen]
    · intro r hr
      simp only [PhaseLagIndex.accAdd, List.mem_map, List.mem_range] at hr
      obtain ⟨r', hr', rfl⟩ := hr
      simp only [List.length_map, List.length_range]
      exact hjrows _ (getD_mem [] hr')

lemma foldl_trialStep_shape {S : Spectral} {tapers : Mat × Vec} {nfft : ℤ} {n p : ℕ} :
    ∀ (trials : List Mat) {acc : List Mat}, ShapeInv n p acc →
      ShapeInv n p (trials.foldl (PhaseLagIndex.trialStep S tapers nfft n) acc)
  | [], _, h => h
  | t :: ts, acc, h => by
    rw [List.foldl_cons]
    exact foldl_trialStep_shape ts (trialStep_shape h t)

lemma trialStep_entry {S : Spectral} {tapers : Mat × Vec} {nfft : ℤ} {n p : ℕ} {acc : List Mat}
    (h : ShapeInv n p acc) (trial : Mat) {i k f : ℕ} (hi : i < n) (hk : k < n) (hf : f < p) :
    getEntry ((PhaseLagIndex.trialStep S tapers nfft n acc trial).getD i []) k f
      = getEntry (acc.getD i []) k f + trialContrib S tapers nfft n trial i k f := by
  obtain ⟨hlen, hmem⟩ := h
  obtain ⟨hilen, hirows⟩ := hmem _ (getD_mem [] (by rw [hlen]; exact hi))
  have hk' : k < (acc.getD i []).length := by rw [hilen]; exact hk
  have hf' : f < ((acc.getD i []).getD k []).length := by
    rw [hirows _ (getD_mem [] hk')]
    exact hf
  simp only [PhaseLagIndex.trialStep]
  rw [getD_range_map _ _ hi, getEntry_accAdd _ _ hk' hf']
  congr 1
  show ((((List.range n).map _).getD k []).getD f 0 : ℚ) = _
  rw [getD_range_map _ _ hk,
    getD_map_of (g := fun z => csign z.im) (d := cxZero) (show csign cxZero.im = 0 from rfl)]
  rfl

lemma foldl_trialStep_entry {S : Spectral} {tapers : Mat × Vec} {nfft : ℤ} {n p : ℕ}
    {i k f : ℕ} (hi : i < n) (hk : k < n) (hf : f < p) :
    ∀ (trials : List Mat) (acc : List Mat), ShapeInv n p acc →
      getEntry ((trials.foldl (PhaseLagIndex.trialStep S tapers nfft n) acc).getD i []) k f
        = getEntry (acc.getD i []) k f
          + (trials.map fun trial => trialContrib S tapers nfft n trial i k f).sum
  | [], acc, _ => by simp
  | t :: ts, acc, h => by
    rw [List.foldl_cons, foldl_trialStep_entry hi hk hf ts _ (trialStep_shape h t),
      trialStep_entry h t hi hk hf, List.map_cons, List.sum_cons]
    ring

/-! ### computePLI lemmas -/

lemma computePLI_length (S : Spectral) (data : List Mat) (iNfft : ℤ) (win : String) :
    (PhaseLagIndex.computePLI S data iNfft win).length = nRows data.headI := by
  simp [PhaseLagIndex.computePLI]

lemma computePLI_getD (S : Spectral) (data : List Mat) (iNfft : ℤ) (win : String)
    {i : ℕ} (hi : i < nRows data.headI) :
    (PhaseLagIndex.computePLI S data iNfft win).getD i []
      = matMapQ (fun q => q / (data.length : ℚ))
          (matMapQ (fun q => |q|)
            ((data.foldl
                (PhaseLagIndex.trialStep S (tapersOf S data win) (effNfft data iNfft)
                  (nRows data.headI))
                (List.replicate (nRows data.headI)
                  (zeroMat (nRows data.headI) (pliNFreqs data iNfft)))).getD i [])) := by
  simp only [PhaseLagIndex.computePLI, effNfft, pliNFreqs, tapersOf]
  rw [getD_range_map _ _ hi]

lemma trialContrib_eq_trialSignIm (S : Spectral) (data : List Mat) (iNfft : ℤ) (win : String)
    (trial : Mat) {i k : ℕ} (f : ℕ) (hi : i < nRows data.headI) (hk : k < nRows data.headI) :
    trialContrib S (tapersOf S data win) (effNfft data iNfft) (nRows data.headI) trial i k f
      = trialSignIm S data iNfft win trial i k f := by
  unfold trialContrib trialSignIm trialCsd PhaseLagIndex.csdRowOf trialSpectrum demeanRows
  rw [getD_range_map _ _ hi, getD_range_map _ _ hk,
    getD_map_of demeanRow_nil trial i, getD_map_of demeanRow_nil trial k]

lemma computePLI_entry (S : Spectral) (data : List Mat) (iNfft : ℤ) (win : String)
    {i k f : ℕ} (hi : i < nRows data.headI) (hk : k < nRows data.headI)
    (hf : f < pliNFreqs data iNfft) :
    getEntry ((PhaseLagIndex.computePLI S data iNfft win).getD i []) k f
      = |(data.map fun trial => trialSignIm S data iNfft win trial i k f).sum
          / (data.length : ℚ)| := by
  rw [computePLI_getD S data iNfft win hi,
    getEntry_matMapQ (g := fun q => q / (data.length : ℚ)) (zero_div _) _ k f,
    getEntry_matMapQ (g := fun q => |q|) abs_zero _ k f,
    foldl_trialStep_entry hi hk hf data _ (shapeInv_replicate _ _),
    getD_replicate_lt hi, getEntry_zeroMat, zero_add]
  have hmap : (fun trial => trialContrib S (tapersOf S data win) (effNfft data iNfft)
        (nRows data.headI) trial i k f)
      = fun trial => trialSignIm S data iNfft win trial i k f :=
    funext fun t => trialContrib_eq_trialSignIm S data iNfft win t f hi hk
  rw [hmap, abs_div, abs_of_nonneg (a := ((data.length : ℚ))) (Nat.cast_nonneg data.length)]

/-! ### Node- and edge-construction lemmas -/

lemma nodePosF_step (matVert : Mat) (n : ℕ) :
    (if matVert.length ≠ 0 ∧ n < matVert.length then vert3 (matVert.getD n [])
     else if n = 0 then zeroVert else nodePosF matVert (n - 1))
      = nodePosF matVert n := by
  unfold nodePosF
  by_cases hM : matVert.length = 0
  · simp [hM]
  · by_cases hn : n < matVert.length
    · have hmin : min n (matVert.length - 1) = n := by omega
      simp [hM, hn, hmin]
    · have hn0 : n ≠ 0 := by omega
      have h1 : min (n - 1) (matVert.length - 1) = matVert.length - 1 := by omega
      have h2 : min n (matVert.length - 1) = matVert.length - 1 := by omega
      simp [hM, hn, hn0, h1, h2]

lemma createNodes_fold (matVert : Mat) :
    ∀ n : ℕ,
      ((List.range n).foldl
        (fun st i =>
          let rowVert := if matVert.length ≠ 0 ∧ i < matVert.length then vert3 (matVert.getD i []) else st.1
          (rowVert, st.2 ++ [{ id := i, pos := rowVert, edges := [] }]))
        (zeroVert, ([] : List NetworkNode)))
      = ((if n = 0 then zeroVert else nodePosF matVert (n - 1)),
         (List.range n).map fun i =>
           ({ id := i, pos := nodePosF matVert i, edges := [] } : NetworkNode)) := by
  intro n
  induction n with
  | zero => simp
  | succ n ih =>
    rw [List.range_succ, List.foldl_append, ih]
    simp only [List.foldl_cons, List.foldl_nil, List.map_append, List.map_cons, List.map_nil]
    rw [nodePosF_step matVert n]
    simp

lemma createNodes_eq (rows : ℕ) (matVert : Mat) :
    createNodes rows matVert
      = (List.range rows).map fun i =>
          ({ id := i, pos := nodePosF matVert i, edges := [] } : NetworkNode) := by
  unfold createNodes
  rw [createNodes_fold]

lemma attachEdges_snd (nodes : List NetworkNode) (tensor : List Mat) (rows : ℕ) :
    (attachEdges nodes tensor rows).2
      = (List.range tensor.length).flatMap fun i =>
          (List.range rows).map fun j => edgeAt tensor i j := by
  unfold attachEdges
  have houter : ∀ (st : List NetworkNode × List NetworkEdge) (i : ℕ),
      (((List.range rows).foldl
        (fun st2 j =>
          (modifyIdx st2.1 i (fun nd => { nd with edges := nd.edges ++ [edgeAt tensor i j] }),
           st2.2 ++ [edgeAt tensor i j]))
        st)).2 = st.2 ++ (List.range rows).map fun j => edgeAt tensor i j := by
    intro st i
    have hinner : ∀ (st2 : List NetworkNode × List NetworkEdge) (j : ℕ),
        ((modifyIdx st2.1 i (fun nd => { nd with edges := nd.edges ++ [edgeAt tensor i j] }),
          st2.2 ++ [edgeAt tensor i j]) : List NetworkNode × List NetworkEdge).2
          = st2.2 ++ [edgeAt tensor i j] := fun _ _ => rfl
    rw [snd_foldl_append hinner (List.range rows) st, flatMap_singleton_eq_map]
  rw [snd_foldl_append houter (List.range tensor.length) (nodes, [])]
  simp

lemma attachEdges_fst_map {β : Type} (g : NetworkNode → β)
    (h : ∀ (nd : NetworkNode) (e : NetworkEdge), g { nd with edges := nd.edges ++ [e] } = g nd)
    (nodes : List NetworkNode) (tensor : List Mat) (rows : ℕ) :
    ((attachEdges nodes tensor rows).1).map g = nodes.map g := by
  unfold attachEdges
  exact foldl_preserves (P := fun st : List NetworkNode × List NetworkEdge => st.1.map g)
    (fun st i =>
      foldl_preserves (P := fun st2 : List NetworkNode × List NetworkEdge => st2.1.map g)
        (fun st2 j => modifyIdx_map (fun x => h x (edgeAt tensor i j)) st2.1 i)
        (List.range rows) st)
    (List.range tensor.length) (nodes, [])

/-! ### Debiasing and window-length lemmas -/

lemma computeUnbiasedSquaredPLI_eq_map (S : Spectral) (data : List Mat) (iNfft : ℤ)
    (win : String) :
    UnbiasedSquaredPhaseLagIndex.computeUnbiasedSquaredPLI S data iNfft win
      = (PhaseLagIndex.computePLI S data iNfft win).map
          (matMapQ (UnbiasedSquaredPhaseLagIndex.debias (data.length : ℤ))) := by
  unfold UnbiasedSquaredPhaseLagIndex.computeUnbiasedSquaredPLI
  have hlen : nRows data.headI = (PhaseLagIndex.computePLI S data iNfft win).length :=
    (computePLI_length S data iNfft win).symm
  rw [hlen, foldl_set_map]

lemma ite_lt_eq_max (a b : ℤ) : (if a < b then b else a) = max a b := by
  rcases lt_or_ge a b with h | h
  · rw [if_pos h, max_eq_right (le_of_lt h)]
  · rw [if_neg (not_lt.mpr h), max_eq_left h]

lemma computeUnbiasedSquaredPLI_length (S : Spectral) (data : List Mat) (iNfft : ℤ)
    (win : String) :
    (UnbiasedSquaredPhaseLagIndex.computeUnbiasedSquaredPLI S data iNfft win).length
      = nRows data.headI := by
  rw [computeUnbiasedSquaredPLI_eq_map]
  rw [List.length_map]
  exact computePLI_length S data iNfft win

lemma attachEdges_endpoints (nodes : List NetworkNode) (tensor : List Mat) (rows : ℕ) :
    ((attachEdges nodes tensor rows).2).map (fun e => (e.startId, e.endId))
      = (List.range tensor.length).flatMap fun i => (List.range rows).map fun j => (i, j) := by
  rw [attachEdges_snd, List.map_flatMap]
  simp only [List.map_map]
  rfl

lemma attachEdges_edge_count (nodes : List NetworkNode) (tensor : List Mat) (rows : ℕ) :
    ((attachEdges nodes tensor rows).2).length = tensor.length * rows := by
  rw [attachEdges_snd, List.length_flatMap]
  show (((List.range tensor.length).map fun i =>
      (((List.range rows).map fun j => edgeAt tensor i j)).length)).sum = tensor.length * rows
  simp only [List.length_map, List.length_range]
  rw [List.map_const', List.sum_replicate, List.length_range, smul_eq_mul]

lemma phaseLagIndex_nodes (S : Spectral) (data : List Mat) (matVert : Mat) (iNfft : ℤ)
    (win : String) (hne : data ≠ []) :
    (PhaseLagIndex.phaseLagIndex S data matVert iNfft win).nodes
      = (attachEdges (createNodes (nRows data.headI) matVert)
          (PhaseLagIndex.computePLI S data iNfft win) (nRows data.headI)).1 := by
  unfold PhaseLagIndex.phaseLagIndex
  rw [if_neg hne]

lemma phaseLagIndex_edges (S : Spectral) (data : List Mat) (matVert : Mat) (iNfft : ℤ)
    (win : String) (hne : data ≠ []) :
    (PhaseLagIndex.phaseLagIndex S data matVert iNfft win).edges
      = (attachEdges (createNodes (nRows data.headI) matVert)
          (PhaseLagIndex.computePLI S data iNfft win) (nRows data.headI)).2 := by
  unfold PhaseLagIndex.phaseLagIndex
  rw [if_neg hne]

lemma phaseLagIndex_name (S : Spectral) (data : List Mat) (matVert : Mat) (iNfft : ℤ)
    (win : String) :
    (PhaseLagIndex.phaseLagIndex S data matVert iNfft win).name = pliNetworkName := by
  unfold PhaseLagIndex.phaseLagIndex
  split <;> rfl

lemma unbiasedSquaredPhaseLagIndex_nodes (S : Spectral) (data : List Mat) (matVert : Mat)
    (iNfft : ℤ) (win : String) (hne : data ≠ []) :
    (UnbiasedSquaredPhaseLagIndex.unbiasedSquaredPhaseLagIndex S data matVert iNfft win).nodes
      = (attachEdges (createNodes (nRows data.headI) matVert)
          (UnbiasedSquaredPhaseLagIndex.computeUnbiasedSquaredPLI S data iNfft win)
          (nRows data.headI)).1 := by
  unfold UnbiasedSquaredPhaseLagIndex.unbiasedSquaredPhaseLagIndex
  rw [if_neg hne]

lemma unbiasedSquaredPhaseLagIndex_edges (S : Spectral) (data : List Mat) (matVert : Mat)
    (iNfft : ℤ) (win : String) (hne : data ≠ []) :
    (UnbiasedSquaredPhaseLagIndex.unbiasedSquaredPhaseLagIndex S data matVert iNfft win).edges
      = (attachEdges (createNodes (nRows data.headI) matVert)
          (UnbiasedSquaredPhaseLagIndex.computeUnbiasedSquaredPLI S data iNfft win)
          (nRows data.headI)).2 := by
  unfold UnbiasedSquaredPhaseLagIndex.unbiasedSquaredPhaseLagIndex
  rw [if_neg hne]

lemma unbiasedSquaredPhaseLagIndex_name (S : Spectral) (data : List Mat) (matVert : Mat)
    (iNfft : ℤ) (win : String) :
    (UnbiasedSquaredPhaseLagIndex.unbiasedSquaredPhaseLagIndex S data matVert iNfft win).name
      = usqNetworkName := by
  unfold UnbiasedSquaredPhaseLagIndex.unbiasedSquaredPhaseLagIndex
  split <;> rfl

/-! ### Claim theorems -/

/-- Claim C6 (confirmed): for every empty trial list and any geometry, FFT
length and window type, `phaseLagIndex` and `unbiasedSquaredPhaseLagIndex`
return a valid Network carrying the correct name string with zero nodes and
zero edges, and raise no error (the functions are total and short-circuit
on the empty guard). -/
theorem emptyInput_returns_named_empty_network (S : Spectral) (matVert : Mat) (iNfft : ℤ)
    (win : String) :
    PhaseLagIndex.phaseLagIndex S [] matVert iNfft win
        = { name := pliNetworkName, nodes := [], edges := [] } ∧
      UnbiasedSquaredPhaseLagIndex.unbiasedSquaredPhaseLagIndex S [] matVert iNfft win
        = { name := usqNetworkName, nodes := [], edges := [] } :=
  ⟨rfl, rfl⟩

/-- Claim C1 (code bug): `computeUnbiasedSquaredPLI` invoked with a single
trial (T = 1) does not fail with any error: it is a total function with no
error channel, and it returns the value of the debiasing transform at
trial count 1, whose divisor `iNTrials - 1 = 1 - 1` is zero (in C++ doubles
this division produces non-finite values; no InvalidTrialCount error
exists anywhere in the code). -/
theorem computeUnbiasedSquaredPLI_single_trial_unguarded :
    UnbiasedSquaredPhaseLagIndex.computeUnbiasedSquaredPLI S₀ dataT1 1 win₀
        = [[[UnbiasedSquaredPhaseLagIndex.debias 1 1]]] ∧
      (1 : ℤ) - 1 = 0 := by
  constructor
  · norm_num [UnbiasedSquaredPhaseLagIndex.computeUnbiasedSquaredPLI,
      PhaseLagIndex.computePLI, PhaseLagIndex.trialStep, PhaseLagIndex.accAdd,
      PhaseLagIndex.csdRowOf, S₀, dataT1, win₀, nRows, nCols, getEntry, demeanRows,
      demeanRow, meanOf, csign, zeroMat, matMapQ, List.range_succ, Function.comp,
      UnbiasedSquaredPhaseLagIndex.debias,
      show ((1 : ℤ).fdiv 2 + 1).toNat = 1 from rfl]
  · decide

/-- Claim C4 (amended): every trial is processed in one and the same global
spectral window, of length `max(requested FFT length, the FIRST trial's
sample count)`, with tapers generated once from the first trial's sample
count; the per-trial FFT length and taper length do not depend on the
trial's own sample count. -/
theorem computePLI_uses_global_window (S : Spectral) (data : List Mat) (iNfft : ℤ)
    (win : String) :
    PhaseLagIndex.computePLI S data iNfft win
      = specComputePLIwith S data win (fun _ => specTrialWindowLen iNfft data.headI)
          (fun _ => (nCols data.headI : ℤ)) := by
  simp only [PhaseLagIndex.computePLI, specComputePLIwith, specTrialWindowLen, ite_lt_eq_max]

/-- Claim C4 (counterexample): with trials of differing sample counts (2
and 5) and requested FFT length 1, the pipeline's output differs from the
spec-modelled per-trial-window pipeline, because the code windows the
second trial at length max(1, 2) = 2 taken from the first trial rather
than max(1, 5) = 5 from its own sample count. -/
theorem computePLI_ne_perTrialWindow :
    PhaseLagIndex.computePLI S₄ data₄ 1 win₀ ≠ specComputePLI S₄ data₄ 1 win₀ := by
  norm_num [PhaseLagIndex.computePLI, specComputePLI, specComputePLIwith,
    specTrialWindowLen, PhaseLagIndex.trialStep, PhaseLagIndex.accAdd,
    PhaseLagIndex.csdRowOf, S₄, data₄, win₀, nRows, nCols, getEntry, demeanRows,
    demeanRow, meanOf, csign, zeroMat, matMapQ, List.range_succ, Function.comp,
    show ((2 : ℤ).fdiv 2 + 1).toNat = 2 from rfl,
    show ((5 : ℤ).fdiv 2 + 1).toNat = 3 from rfl]
  refine ⟨0, by norm_num, ?_⟩
  norm_num [show ((2 : ℤ)).toNat = 2 from rfl, List.range_succ]

/-- Claim C2 (confirmed): for a non-empty trial list, every valid reference
channel `i`, target channel `k` and frequency bin `f`, the `computePLI`
value equals the absolute value of the mean over trials of
`sign(Im(CSD_t(i,k,f)))`, where `csign` maps positives to 1, negatives to
-1 and exactly zero to 0. -/
theorem computePLI_entry_is_abs_mean_sign (S : Spectral) (data : List Mat) (iNfft : ℤ)
    (win : String) {i k f : ℕ} (hne : data ≠ [])
    (hi : i < nRows data.headI) (hk : k < nRows data.headI)
    (hf : f < pliNFreqs data iNfft) :
    getEntry ((PhaseLagIndex.computePLI S data iNfft win).getD i []) k f
      = |(data.map fun trial => trialSignIm S data iNfft win trial i k f).sum
          / (data.length : ℚ)| :=
  computePLI_entry S data iNfft win hi hk hf

/-- Witness for claim C2 at a concrete single-trial input. -/
theorem computePLI_entry_is_abs_mean_sign_witness :
    dataT1 ≠ [] ∧ 0 < nRows dataT1.headI ∧ 0 < pliNFreqs dataT1 1 ∧
      getEntry ((PhaseLagIndex.computePLI S₀ dataT1 1 win₀).getD 0 []) 0 0
        = |(dataT1.map fun trial => trialSignIm S₀ dataT1 1 win₀ trial 0 0 0).sum
            / (dataT1.length : ℚ)| :=
  ⟨by decide, by decide, by decide,
    computePLI_entry_is_abs_mean_sign S₀ dataT1 1 win₀ (by decide) (by decide) (by decide)
      (by decide)⟩

/-- Claim C3 (confirmed): on a non-empty trial list with T trials,
`computeUnbiasedSquaredPLI` is exactly the element-wise transform
`debias T : p ↦ (T·p² − 1)/(T − 1)` applied to the tensor returned by
`computePLI` on the same inputs — no re-derivation of the PLI occurs. -/
theorem computeUnbiasedSquaredPLI_is_elementwise_debias (S : Spectral) (data : List Mat)
    (iNfft : ℤ) (win : String) (hne : data ≠ []) :
    UnbiasedSquaredPhaseLagIndex.computeUnbiasedSquaredPLI S data iNfft win
      = (PhaseLagIndex.computePLI S data iNfft win).map
          (matMapQ (UnbiasedSquaredPhaseLagIndex.debias (data.length : ℤ))) :=
  computeUnbiasedSquaredPLI_eq_map S data iNfft win

/-- Witness for claim C3 at a concrete two-trial input. -/
theorem computeUnbiasedSquaredPLI_is_elementwise_debias_witness :
    data₄ ≠ [] ∧
      UnbiasedSquaredPhaseLagIndex.computeUnbiasedSquaredPLI S₄ data₄ 1 win₀
        = (PhaseLagIndex.computePLI S₄ data₄ 1 win₀).map
            (matMapQ (UnbiasedSquaredPhaseLagIndex.debias (data₄.length : ℤ))) :=
  ⟨by decide, computeUnbiasedSquaredPLI_is_elementwise_debias S₄ data₄ 1 win₀ (by decide)⟩

/-- Claim C5 (counterexample): with two channels and a single supplied
geometry row (1,2,3), node 1 of both networks carries position (1,2,3) —
the lingering previous contents of `rowVert` — and not the origin the
claim asserts. -/
theorem nodePositions_counterexample :
    ((PhaseLagIndex.phaseLagIndex S₀ data₅ vert₅ 1 win₀).nodes.map NetworkNode.pos).getD 1 []
        = [1, 2, 3] ∧
      ((UnbiasedSquaredPhaseLagIndex.unbiasedSquaredPhaseLagIndex S₀ data₅ vert₅ 1
            win₀).nodes.map NetworkNode.pos).getD 1 [] = [1, 2, 3] ∧
      ([1, 2, 3] : Vec) ≠ [0, 0, 0] := by
  refine ⟨?_, ?_, by decide⟩
  · rw [phaseLagIndex_nodes S₀ data₅ vert₅ 1 win₀ (by decide),
      attachEdges_fst_map NetworkNode.pos (fun nd e => rfl), createNodes_eq, List.map_map]
    decide
  · rw [unbiasedSquaredPhaseLagIndex_nodes S₀ data₅ vert₅ 1 win₀ (by decide),
      attachEdges_fst_map NetworkNode.pos (fun nd e => rfl), createNodes_eq, List.map_map]
    decide

/-- Claim C5 (amended): with a geometry matrix of M rows and N > M
channels, both networks assign the supplied coordinates to nodes 0..M-1,
while every remaining node M..N-1 receives the LAST supplied geometry row
(row M-1) — the contents `rowVert` retains — which is the origin only in
the degenerate case M = 0. -/
theorem nodePositions_follow_lingering_rowVert (S : Spectral) (data : List Mat)
    (matVert : Mat) (iNfft : ℤ) (win : String) (hne : data ≠ [])
    (hM : matVert.length < nRows data.headI) :
    ((PhaseLagIndex.phaseLagIndex S data matVert iNfft win).nodes.map NetworkNode.pos
        = (List.range (nRows data.headI)).map (nodePosF matVert)) ∧
      ((UnbiasedSquaredPhaseLagIndex.unbiasedSquaredPhaseLagIndex S data matVert iNfft
            win).nodes.map NetworkNode.pos
        = (List.range (nRows data.headI)).map (nodePosF matVert)) := by
  constructor
  · rw [phaseLagIndex_nodes S data matVert iNfft win hne,
      attachEdges_fst_map NetworkNode.pos (fun nd e => rfl), createNodes_eq, List.map_map]
    rfl
  · rw [unbiasedSquaredPhaseLagIndex_nodes S data matVert iNfft win hne,
      attachEdges_fst_map NetworkNode.pos (fun nd e => rfl), createNodes_eq, List.map_map]
    rfl

/-- Witness for the amended claim C5 at a concrete input. -/
theorem nodePositions_follow_lingering_rowVert_witness :
    data₅ ≠ [] ∧ vert₅.length < nRows data₅.headI ∧
      ((PhaseLagIndex.phaseLagIndex S₀ data₅ vert₅ 1 win₀).nodes.map NetworkNode.pos
          = (List.range (nRows data₅.headI)).map (nodePosF vert₅)) ∧
      ((UnbiasedSquaredPhaseLagIndex.unbiasedSquaredPhaseLagIndex S₀ data₅ vert₅ 1
            win₀).nodes.map NetworkNode.pos
          = (List.range (nRows data₅.headI)).map (nodePosF vert₅)) :=
  ⟨by decide, by decide,
    (nodePositions_follow_lingering_rowVert S₀ data₅ vert₅ 1 win₀ (by decide) (by decide)).1,
    (nodePositions_follow_lingering_rowVert S₀ data₅ vert₅ 1 win₀ (by decide) (by decide)).2⟩

/-- Claim C7 (confirmed): for a non-empty trial list with N channels, both
networks contain exactly N nodes appended in channel-index order 0..N-1,
and exactly N² edges appended in row-major (i,j) order: outer loop over
reference channel i, inner loop over target channel j. -/
theorem networks_dense_rowMajor (S : Spectral) (data : List Mat) (matVert : Mat)
    (iNfft : ℤ) (win : String) (hne : data ≠ []) :
    ((PhaseLagIndex.phaseLagIndex S data matVert iNfft win).nodes.map NetworkNode.id
        = List.range (nRows data.headI)) ∧
      ((PhaseLagIndex.phaseLagIndex S data matVert iNfft win).edges.map
          (fun e => (e.startId, e.endId))
        = (List.range (nRows data.headI)).flatMap fun i =>
            (List.range (nRows data.headI)).map fun j => (i, j)) ∧
      ((PhaseLagIndex.phaseLagIndex S data matVert iNfft win).edges.length
        = nRows data.headI * nRows data.headI) ∧
      ((UnbiasedSquaredPhaseLagIndex.unbiasedSquaredPhaseLagIndex S data matVert iNfft
            win).nodes.map NetworkNode.id = List.range (nRows data.headI)) ∧
      ((UnbiasedSquaredPhaseLagIndex.unbiasedSquaredPhaseLagIndex S data matVert iNfft
            win).edges.map (fun e => (e.startId, e.endId))
        = (List.range (nRows data.headI)).flatMap fun i =>
            (List.range (nRows data.headI)).map fun j => (i, j)) ∧
      ((UnbiasedSquaredPhaseLagIndex.unbiasedSquaredPhaseLagIndex S data matVert iNfft
            win).edges.length = nRows data.headI * nRows data.headI) := by
  refine ⟨?_, ?_, ?_, ?_, ?_, ?_⟩
  · rw [phaseLagIndex_nodes S data matVert iNfft win hne,
      attachEdges_fst_map NetworkNode.id (fun nd e => rfl), createNodes_eq, List.map_map]
    exact List.map_id _
  · rw [phaseLagIndex_edges S data matVert iNfft win hne, attachEdges_endpoints,
      computePLI_length]
  · rw [phaseLagIndex_edges S data matVert iNfft win hne, attachEdges_edge_count,
      computePLI_length]
  · rw [unbiasedSquaredPhaseLagIndex_nodes S data matVert iNfft win hne,
      attachEdges_fst_map NetworkNode.id (fun nd e => rfl), createNodes_eq, List.map_map]
    exact List.map_id _
  · rw [unbiasedSquaredPhaseLagIndex_edges S data matVert iNfft win hne,
      attachEdges_endpoints, computeUnbiasedSquaredPLI_length]
  · rw [unbiasedSquaredPhaseLagIndex_edges S data matVert iNfft win hne,
      attachEdges_edge_count, computeUnbiasedSquaredPLI_length]

/-- Witness for claim C7 at a concrete two-channel input. -/
theorem networks_dense_rowMajor_witness :
    data₅ ≠ [] ∧
      ((PhaseLagIndex.phaseLagIndex S₀ data₅ vert₅ 1 win₀).edges.length
        = nRows data₅.headI * nRows data₅.headI) :=
  ⟨by decide,
    (networks_dense_rowMajor S₀ data₅ vert₅ 1 win₀ (by decide)).2.2.1⟩

/-- Claim C8 (confirmed): whenever the CSD combiner conjugates its output
under swapping of its two channel arguments (its documented contract), the
PLI tensor is symmetric in the channel indices:
PLI(i,k,f) = PLI(k,i,f) exactly. -/
theorem computePLI_symmetric (S : Spectral) (data : List Mat) (iNfft : ℤ) (win : String)
    (hne : data ≠ [])
    (hconj : ∀ (a b : CMat) (w : Vec) (n : ℤ) (s : ℚ),
      S.csdFromTaperedSpectra b a w w n s = (S.csdFromTaperedSpectra a b w w n s).map conjCx)
    {i k f : ℕ} (hi : i < nRows data.headI) (hk : k < nRows data.headI)
    (hf : f < pliNFreqs data iNfft) :
    getEntry ((PhaseLagIndex.computePLI S data iNfft win).getD i []) k f
      = getEntry ((PhaseLagIndex.computePLI S data iNfft win).getD k []) i f := by
  rw [computePLI_entry S data iNfft win hi hk hf, computePLI_entry S data iNfft win hk hi hf]
  have hswap : (fun t => trialSignIm S data iNfft win t k i f)
      = fun t => -(trialSignIm S data iNfft win t i k f) := by
    funext t
    unfold trialSignIm trialCsd
    rw [hconj]
    rw [getD_map_of (g := conjCx) (d := cxZero)
      (show conjCx cxZero = cxZero from by simp [conjCx, cxZero])]
    exact csign_neg _
  rw [hswap]
  have hneg : (data.map fun t => -(trialSignIm S data iNfft win t i k f)).sum
      = -((data.map fun t => trialSignIm S data iNfft win t i k f).sum) := by
    rw [show (data.map fun t => -(trialSignIm S data iNfft win t i k f))
        = ((data.map fun t => trialSignIm S data iNfft win t i k f).map fun x => -x) from by
      rw [List.map_map]
      rfl]
    exact (List.sum_neg _).symm
  rw [hneg, neg_div, abs_neg]

/-- Witness for claim C8 at a concrete conjugate-symmetric CSD combiner. -/
theorem computePLI_symmetric_witness :
    data₈ ≠ [] ∧
      (∀ (a b : CMat) (w : Vec) (n : ℤ) (s : ℚ),
        S₈.csdFromTaperedSpectra b a w w n s
          = (S₈.csdFromTaperedSpectra a b w w n s).map conjCx) ∧
      0 < nRows data₈.headI ∧ 1 < nRows data₈.headI ∧ 0 < pliNFreqs data₈ 2 ∧
      getEntry ((PhaseLagIndex.computePLI S₈ data₈ 2 win₀).getD 0 []) 1 0
        = getEntry ((PhaseLagIndex.computePLI S₈ data₈ 2 win₀).getD 1 []) 0 0 :=
  ⟨by decide,
    fun a b w n s => by simp [S₈, conjCx, Cx.mk.injEq, neg_sub],
    by decide, by decide, by decide,
    computePLI_symmetric S₈ data₈ 2 win₀ (by decide)
      (fun a b w n s => by simp [S₈, conjCx, Cx.mk.injEq, neg_sub])
      (by decide) (by decide) (by decide)⟩

/-- Claim C9 (confirmed): for a non-empty trial list and valid channel
indices and frequency bin, the computePLI value lies in [0, 1]: it is the
absolute value of a mean of T terms each in the set of signs. -/
theorem computePLI_entries_in_unit_interval (S : Spectral) (data : List Mat) (iNfft : ℤ)
    (win : String) (hne : data ≠ []) {i k f : ℕ}
    (hi : i < nRows data.headI) (hk : k < nRows data.headI)
    (hf : f < pliNFreqs data iNfft) :
    0 ≤ getEntry ((PhaseLagIndex.computePLI S data iNfft win).getD i []) k f ∧
      getEntry ((PhaseLagIndex.computePLI S data iNfft win).getD i []) k f ≤ 1 := by
  rw [computePLI_entry S data iNfft win hi hk hf]
  refine ⟨abs_nonneg _, ?_⟩
  rw [abs_div, abs_of_nonneg (a := ((data.length : ℚ))) (Nat.cast_nonneg _)]
  have hT : 0 < (data.length : ℚ) := by
    have h1 : 0 < data.length := List.length_pos.mpr hne
    exact_mod_cast h1
  rw [div_le_one hT]
  have hb := abs_sum_le_length (data.map fun t => trialSignIm S data iNfft win t i k f)
    (by
      intro x hx
      obtain ⟨t, _, rfl⟩ := List.mem_map.mp hx
      exact abs_csign_le_one _)
  simpa using hb

/-- Witness for claim C9 at a concrete input. -/
theorem computePLI_entries_in_unit_interval_witness :
    dataT1 ≠ [] ∧ 0 < nRows dataT1.headI ∧ 0 < pliNFreqs dataT1 1 ∧
      (0 ≤ getEntry ((PhaseLagIndex.computePLI S₀ dataT1 1 win₀).getD 0 []) 0 0 ∧
        getEntry ((PhaseLagIndex.computePLI S₀ dataT1 1 win₀).getD 0 []) 0 0 ≤ 1) :=
  ⟨by decide, by decide, by decide,
    computePLI_entries_in_unit_interval S₀ dataT1 1 win₀ (by decide) (by decide) (by decide)
      (by decide)⟩

/-- Claim C10 (confirmed): for every input, the networks returned by
`phaseLagIndex` and `unbiasedSquaredPhaseLagIndex` have identical graph
structure — the same node (index, position) sequence and the same sequence
of edge endpoint pairs in the same order — differing only in the network
name and in the per-edge weight vectors. -/
theorem networks_share_graph_structure (S : Spectral) (data : List Mat) (matVert : Mat)
    (iNfft : ℤ) (win : String) :
    ((PhaseLagIndex.phaseLagIndex S data matVert iNfft win).nodes.map (fun n => (n.id, n.pos))
        = (UnbiasedSquaredPhaseLagIndex.unbiasedSquaredPhaseLagIndex S data matVert iNfft
            win).nodes.map (fun n => (n.id, n.pos))) ∧
      ((PhaseLagIndex.phaseLagIndex S data matVert iNfft win).edges.map
          (fun e => (e.startId, e.endId))
        = (UnbiasedSquaredPhaseLagIndex.unbiasedSquaredPhaseLagIndex S data matVert iNfft
            win).edges.map (fun e => (e.startId, e.endId))) ∧
      (PhaseLagIndex.phaseLagIndex S data matVert iNfft win).name = pliNetworkName ∧
      (UnbiasedSquaredPhaseLagIndex.unbiasedSquaredPhaseLagIndex S data matVert iNfft
          win).name = usqNetworkName := by
  refine ⟨?_, ?_, phaseLagIndex_name S data matVert iNfft win,
    unbiasedSquaredPhaseLagIndex_name S data matVert iNfft win⟩
  · by_cases hne : data = []
    · subst hne
      rfl
    · rw [phaseLagIndex_nodes S data matVert iNfft win hne,
        unbiasedSquaredPhaseLagIndex_nodes S data matVert iNfft win hne,
        attachEdges_fst_map (fun n => (n.id, n.pos)) (fun nd e => rfl),
        attachEdges_fst_map (fun n => (n.id, n.pos)) (fun nd e => rfl)]
  · by_cases hne : data = []
    · subst hne
      rfl
    · rw [phaseLagIndex_edges S data matVert iNfft win hne,
        unbiasedSquaredPhaseLagIndex_edges S data matVert iNfft win hne,
        attachEdges_endpoints, attachEdges_endpoints, computePLI_length,
        computeUnbiasedSquaredPLI_length]
